import Mathlib

/-!
Verification of the reconciliation core of an S3 vault-sync plugin.

The definitions below are shallow embeddings of the TypeScript source:
  - `computeThreeWayDiff`, `diffToAction`      from src/sync/DiffEngine.ts
  - `determineAction`, `buildFileStateMap`,
    `generateSyncPlan`, `syncRun`, `uploadFileJournal`,
    `shouldExclude`                            from the SyncEngine module
  - `addPendingChange`, `clearPendingChanges`  from src/sync/ChangeTracker.ts
  - `markSynced`, `markDeleted`, journal ops   from the SyncJournal module
  - `generateConflictPaths`, `getOriginalPath`,
    `isConflictFile`                           from src/sync/ConflictHandler.ts

JavaScript `string | undefined` values are `Option String`; JS truthiness of
such a value (`undefined` and `""` are falsy) is `jsTruthy`.  JS `Map` and the
IndexedDB store keyed by `path` are association lists with set-in-place
semantics.  Wall-clock reads (`Date.now()`) are explicit `now` parameters.
-/

/-- Sync status stored in a journal entry (types.ts `SyncFileStatus`). -/
inductive SyncFileStatus where
  | synced
  | pending
  | conflict
  | deleted
  | new
  deriving DecidableEq, Repr

/-- Journal entry (types.ts `SyncJournalEntry`; optional `lastModifiedBy`
is never read by the reconciliation core and is omitted). -/
structure SyncJournalEntry where
  path : String
  localHash : String
  remoteHash : String
  localMtime : Nat
  remoteMtime : Nat
  syncedAt : Nat
  status : SyncFileStatus
  deriving DecidableEq, Repr

/-- Sync action (types.ts `SyncAction`). -/
inductive SyncAction where
  | upload
  | download
  | deleteLocal
  | deleteRemote
  | conflict
  | skip
  deriving DecidableEq, Repr

/-- Diff classification (DiffEngine.ts `DiffResult`). -/
inductive DiffResult where
  | unchanged
  | localOnly
  | remoteOnly
  | bothChanged
  | newLocal
  | newRemote
  | deletedLocal
  | deletedRemote
  deriving DecidableEq, Repr

/-- File state for diff comparison (DiffEngine.ts `FileSnapshot`).
`present` embeds the source field `exists` (a Lean keyword). -/
structure FileSnapshot where
  present : Bool
  hash : Option String := none
  mtime : Option Nat := none
  deriving DecidableEq, Repr

/-- JS truthiness of a `string | undefined` value: `undefined` and the empty
string are falsy, every other string is truthy. -/
def jsTruthy : Option String → Bool
  | none => false
  | some s => !s.isEmpty

/-- DiffEngine.ts `computeThreeWayDiff(local, remote, journal?)`. -/
def computeThreeWayDiff (localS remoteS : FileSnapshot)
    (journal : Option SyncJournalEntry) : DiffResult :=
  if localS.present && remoteS.present then
    if jsTruthy localS.hash && jsTruthy remoteS.hash
        && localS.hash == remoteS.hash then
      .unchanged
    else
      match journal with
      | none => .bothChanged
      | some j =>
        let localChanged := localS.hash != some j.localHash
        let remoteChanged := remoteS.hash != some j.remoteHash
        if localChanged && remoteChanged then .bothChanged
        else if localChanged then .localOnly
        else if remoteChanged then .remoteOnly
        else .unchanged
  else if localS.present && !remoteS.present then
    if journal.isSome then .deletedRemote else .newLocal
  else if !localS.present && remoteS.present then
    if journal.isSome then .deletedLocal else .newRemote
  else .unchanged

/-- DiffEngine.ts `diffToAction(diff)`; the source returns the action as a
string. -/
def diffToAction : DiffResult → String
  | .unchanged => "skip"
  | .localOnly | .newLocal => "upload"
  | .remoteOnly | .newRemote => "download"
  | .deletedLocal => "delete-remote"
  | .deletedRemote => "delete-local"
  | .bothChanged => "conflict"

/-- Per-path merged state (SyncEngine `FileState`). -/
structure FileState where
  path : String
  localExists : Bool
  remoteExists : Bool
  localHash : Option String := none
  remoteHash : Option String := none
  localMtime : Option Nat := none
  remoteMtime : Option Nat := none
  journalLocalHash : Option String := none
  journalRemoteHash : Option String := none
  journalSyncedAt : Option Nat := none
  deriving DecidableEq, Repr

/-- SyncEngine `determineAction(state)`.  `localChanged`/`remoteChanged`
mirror the JS truthy guards `journalLocalHash && localHash !== journalLocalHash`
and the mtime fallbacks `state.localMtime || 0`. -/
def determineAction (state : FileState) : SyncAction :=
  if state.localExists && state.remoteExists then
    if jsTruthy state.localHash && jsTruthy state.remoteHash
        && state.localHash == state.remoteHash then
      .skip
    else
      let localChanged := jsTruthy state.journalLocalHash
        && state.localHash != state.journalLocalHash
      let remoteChanged := jsTruthy state.journalRemoteHash
        && state.remoteHash != state.journalRemoteHash
      if localChanged && remoteChanged then .conflict
      else if localChanged then .upload
      else if remoteChanged then .download
      else if !jsTruthy state.journalLocalHash then
        if state.localMtime.getD 0 > state.remoteMtime.getD 0 then .upload
        else .download
      else .skip
  else if state.localExists && !state.remoteExists then
    if jsTruthy state.journalRemoteHash then .deleteLocal else .upload
  else if !state.localExists && state.remoteExists then
    if jsTruthy state.journalLocalHash then .deleteRemote else .download
  else .skip

/-! ### Keyed stores

A JS `Map` (and the IndexedDB object store keyed by `path`) is embedded as an
association list: `set` replaces the value at an existing key in place,
otherwise appends; `get` returns the first (unique) binding. -/

/-- Lookup in a string-keyed association list (JS `Map.get`). -/
def alistGet {α : Type} (m : List (String × α)) (k : String) : Option α :=
  match m with
  | [] => none
  | (k', v) :: rest => if k' = k then some v else alistGet rest k

/-- Insert/replace in a string-keyed association list (JS `Map.set`). -/
def alistSet {α : Type} (m : List (String × α)) (k : String) (v : α) :
    List (String × α) :=
  match m with
  | [] => [(k, v)]
  | (k', v') :: rest =>
    if k' = k then (k, v) :: rest else (k', v') :: alistSet rest k v

/-- Remove a key from a string-keyed association list (JS `Map.delete`,
IndexedDB `delete`). -/
def alistRemove {α : Type} (m : List (String × α)) (k : String) :
    List (String × α) :=
  match m with
  | [] => []
  | (k', v') :: rest =>
    if k' = k then rest else (k', v') :: alistRemove rest k

/-! ### SyncJournal

The journal's IndexedDB store keyed by `path` (SyncJournal module). -/

/-- The journal: entries keyed by path. -/
abbrev Journal := List (String × SyncJournalEntry)

/-- SyncJournal `getEntry(path)`. -/
def getEntry (j : Journal) (path : String) : Option SyncJournalEntry :=
  alistGet j path

/-- SyncJournal `setEntry(entry)` (IndexedDB `put`, keyPath `path`). -/
def setEntry (j : Journal) (e : SyncJournalEntry) : Journal :=
  alistSet j e.path e

/-- SyncJournal `deleteEntry(path)`. -/
def deleteEntry (j : Journal) (path : String) : Journal :=
  alistRemove j path

/-- SyncJournal `markSynced(path, localHash, remoteHash, localMtime,
remoteMtime)`; `now` is the `Date.now()` read for `syncedAt`. -/
def markSynced (j : Journal) (path localHash remoteHash : String)
    (localMtime remoteMtime now : Nat) : Journal :=
  setEntry j
    { path := path
      localHash := localHash
      remoteHash := remoteHash
      localMtime := localMtime
      remoteMtime := remoteMtime
      syncedAt := now
      status := .synced }

/-- SyncJournal `markDeleted(path)`: flips an existing entry's status to
`deleted`; does nothing when no entry exists. -/
def markDeleted (j : Journal) (path : String) : Journal :=
  match getEntry j path with
  | some existing => setEntry j { existing with status := .deleted }
  | none => j

/-- SyncJournal `markConflict(path, localHash, remoteHash)`; `now` is the
`Date.now()` default used for missing mtimes. -/
def markConflict (j : Journal) (path localHash remoteHash : String)
    (now : Nat) : Journal :=
  let existing := getEntry j path
  setEntry j
    { path := path
      localHash := localHash
      remoteHash := remoteHash
      localMtime := (existing.map (·.localMtime)).getD now
      remoteMtime := (existing.map (·.remoteMtime)).getD now
      syncedAt := (existing.map (·.syncedAt)).getD 0
      status := .conflict }

/-! ### ChangeTracker pending-change ledger -/

/-- Pending change kind (ChangeTracker.ts `PendingChange['type']`). -/
inductive ChangeType where
  | create
  | modify
  | delete
  | rename
  deriving DecidableEq, Repr

/-- ChangeTracker.ts `PendingChange`. -/
structure PendingChange where
  path : String
  type : ChangeType
  timestamp : Nat
  oldPath : Option String := none
  deriving DecidableEq, Repr

/-- The in-memory pending ledger `Map<string, PendingChange>`. -/
abbrev PendingMap := List (String × PendingChange)

/-- ChangeTracker.ts `addPendingChange(change)`: when an entry of type
create/modify is already pending for the path, only its timestamp (and, for a
modify event, its type) are updated; otherwise the change is stored. -/
def addPendingChange (pending : PendingMap) (change : PendingChange) :
    PendingMap :=
  match alistGet pending change.path with
  | some existing =>
    if existing.type = .create || existing.type = .modify then
      alistSet pending change.path
        { existing with
          timestamp := change.timestamp
          type := if change.type = .modify then .modify else existing.type }
    else
      alistSet pending change.path change
  | none => alistSet pending change.path change

/-- ChangeTracker.ts `clearPendingChanges()`. -/
def clearPendingChanges (_ : PendingMap) : PendingMap := []

/-- ChangeTracker.ts `getPendingCount()`. -/
def getPendingCount (pending : PendingMap) : Nat := pending.length

/-! ### Exclude-pattern matching

ChangeTracker.ts `shouldExclude` and SyncEngine `shouldExclude` share one
body: the pattern goes through the replace chain `.`→`\.`, `**`→`.*`,
`*`→`[^/]*` and the result is matched anchored (`^...$`) against the path.
The path-utils `matchGlob` differs only in protecting `**` with a placeholder
before the single-`*` replace.  Both are embedded via a token list. -/

/-- A glob pattern token: a literal character, a single `*`, or `**`. -/
inductive GlobTok where
  | lit (c : Char)
  | star
  | globstar
  deriving DecidableEq, Repr

/-- Tokenize a glob pattern the way the JS global replaces scan it: `**`
first, left to right and non-overlapping, then the remaining single `*`. -/
def parseGlob : List Char → List GlobTok
  | '*' :: '*' :: rest => .globstar :: parseGlob rest
  | '*' :: rest => .star :: parseGlob rest
  | c :: rest => .lit c :: parseGlob rest
  | [] => []

/-- The regex fragment `[^/]*` followed by a continuation: `next` is tried at
the current position and after consuming any run of non-slash characters. -/
def starMatch (next : List Char → Bool) : List Char → Bool
  | [] => next []
  | d :: ds => next (d :: ds) || (d != '/' && starMatch next ds)

/-- The regex fragment `.*` followed by a continuation: `next` is tried at
every suffix. -/
def anyMatch (next : List Char → Bool) : List Char → Bool
  | [] => next []
  | d :: ds => next (d :: ds) || anyMatch next ds

/-- Matcher for the regex `shouldExclude` builds.  Because the single-`*`
replace also rewrites the `*` inside the `.*` just produced from `**`, a `**`
token denotes the regex `.[^/]*`: exactly one arbitrary character (the dot,
which in JS also matches `/`) followed by a run of non-slash characters.  A
single `*` denotes `[^/]*`; a literal matches itself; the match is anchored
at both ends. -/
def chainMatch : List GlobTok → List Char → Bool
  | [], ds => ds.isEmpty
  | .lit _ :: _, [] => false
  | .lit c :: ts, d :: ds => c == d && chainMatch ts ds
  | .star :: ts, ds => starMatch (chainMatch ts) ds
  | .globstar :: ts, ds =>
    match ds with
    | [] => false
    | _ :: ds' => starMatch (chainMatch ts) ds'

/-- ChangeTracker.ts `shouldExclude(path)` / SyncEngine `shouldExclude(path)`
over a given exclude-pattern list. -/
def shouldExclude (patterns : List String) (path : String) : Bool :=
  patterns.any fun pat => chainMatch (parseGlob pat.toList) path.toList

/-- Matcher for the regex the path-utils `matchGlob` builds, where `**` is
protected by a placeholder and becomes `.*`: any characters including `/`.
A single `*` is `[^/]*` as above. -/
def placeholderMatch : List GlobTok → List Char → Bool
  | [], ds => ds.isEmpty
  | .lit _ :: _, [] => false
  | .lit c :: ts, d :: ds => c == d && placeholderMatch ts ds
  | .star :: ts, ds => starMatch (placeholderMatch ts) ds
  | .globstar :: ts, ds => anyMatch (placeholderMatch ts) ds

/-- Path-utils `matchGlob(path, pattern)` (the correct globstar handling the
repository uses outside the two `shouldExclude` copies). -/
def matchGlob (path : String) (pattern : String) : Bool :=
  placeholderMatch (parseGlob pattern.toList) path.toList

/-! ### Conflict paths (ConflictHandler.ts) -/

/-- Split a character list at its last `/`: `some (dir, name)` with
`l = dir ++ '/' :: name` and no `/` in `name`; `none` when the list has no
slash.  This embeds the `lastIndexOf('/')`/`substring` pair used throughout
ConflictHandler.ts. -/
def lastSlashSplit : List Char → Option (List Char × List Char)
  | [] => none
  | c :: rest =>
    match lastSlashSplit rest with
    | some (d, n) => some (c :: d, n)
    | none => if c = '/' then some ([], rest) else none

/-- Strip a literal character prefix, returning the remainder (embeds
`startsWith` + `substring(k)` on the basename). -/
def stripChars : List Char → List Char → Option (List Char)
  | [], l => some l
  | _ :: _, [] => none
  | p :: ps, c :: cs => if p = c then stripChars ps cs else none

/-- The `LOCAL_` basename marker. -/
def conflictLocalTag : List Char := "LOCAL_".toList

/-- The `REMOTE_` basename marker. -/
def conflictRemoteTag : List Char := "REMOTE_".toList

/-- Rebuild `dir ? dir + '/' + name : name` (JS empty-string falsiness). -/
def joinDir (dir name : List Char) : List Char :=
  if dir.isEmpty then name else dir ++ '/' :: name

/-- The pair returned by ConflictHandler `generateConflictPaths(path)`. -/
structure ConflictPaths where
  localPath : String
  remotePath : String
  deriving DecidableEq, Repr

/-- ConflictHandler.ts `generateConflictPaths(path)`: prefix the basename
with `LOCAL_` / `REMOTE_`, keeping the directory part. -/
def generateConflictPaths (path : String) : ConflictPaths :=
  match lastSlashSplit path.toList with
  | some (dir, fileName) =>
    ⟨⟨joinDir dir (conflictLocalTag ++ fileName)⟩,
     ⟨joinDir dir (conflictRemoteTag ++ fileName)⟩⟩
  | none =>
    ⟨⟨conflictLocalTag ++ path.toList⟩, ⟨conflictRemoteTag ++ path.toList⟩⟩

/-- ConflictHandler.ts `isConflictFile(path)`: only the final path segment is
inspected for a `LOCAL_` / `REMOTE_` marker. -/
def isConflictFile (path : String) : Bool :=
  let fileName :=
    match lastSlashSplit path.toList with
    | some (_, n) => n
    | none => path.toList
  (stripChars conflictLocalTag fileName).isSome
    || (stripChars conflictRemoteTag fileName).isSome

/-- ConflictHandler.ts `getOriginalPath(conflictPath)`: strip the marker from
the final segment, keeping the directory part; `none` when the basename
carries no marker. -/
def getOriginalPath (conflictPath : String) : Option String :=
  let parts :=
    match lastSlashSplit conflictPath.toList with
    | some (d, n) => (d, n)
    | none => (([] : List Char), conflictPath.toList)
  match stripChars conflictLocalTag parts.2 with
  | some rest => some ⟨joinDir parts.1 rest⟩
  | none =>
    match stripChars conflictRemoteTag parts.2 with
    | some rest => some ⟨joinDir parts.1 rest⟩
    | none => none

/-! ### SyncEngine enumeration, planning and execution

The vault, the S3 listing and the journal contents visible to one run are a
`SyncWorld`.  `hashContent` (crypto/Hasher.ts, SHA-256) is a parameter of the
embedding.  The settings field the source calls the sync prefix is the
`syncRoot` argument below. -/

/-- One vault file as the enumeration reads it: path, content, mtime. -/
structure LocalFile where
  path : String
  content : String
  mtime : Nat
  deriving DecidableEq, Repr

/-- One listed S3 object (types.ts `S3ObjectInfo`): `etag` is optional and
`lastModified` is the epoch-ms value of `lastModified.getTime()`. -/
structure S3ObjectInfo where
  key : String
  etag : Option String := none
  lastModified : Nat
  deriving DecidableEq, Repr

/-- The inputs one sync run enumerates. -/
structure SyncWorld where
  localFiles : List LocalFile
  remoteObjects : List S3ObjectInfo
  journalEntries : List SyncJournalEntry
  deriving Repr

/-- Does `hay` contain `needle` as a contiguous run (JS `String.includes`)? -/
def charsContain (needle : List Char) : List Char → Bool
  | [] => needle.isEmpty
  | c :: rest => (stripChars needle (c :: rest)).isSome || charsContain needle rest

/-- JS `etag.replace(/"/g, '')`: drop every double quote. -/
def stripQuotes (s : String) : String :=
  ⟨s.toList.filter (fun c => c != '"')⟩

/-- SyncEngine `s3KeyToLocalPath(key)`: strip the sync root plus `/`. -/
def s3KeyToLocalPath (syncRoot : String) (key : String) : Option String :=
  match stripChars (syncRoot.toList ++ ['/']) key.toList with
  | some rest => some ⟨rest⟩
  | none => none

/-- SyncEngine `localPathToS3Key(path)`. -/
def localPathToS3Key (syncRoot : String) (path : String) : String :=
  syncRoot ++ "/" ++ path

/-- SyncEngine `buildFileStateMap()`: local pass (exclude-filtered, hashed),
then the remote listing (internal-metadata keys skipped, root stripped,
ETag with quotes removed as the remote hash, `'' ` when absent), then the
journal baselines, each merged into one path-keyed map. -/
def buildFileStateMap (excludePatterns : List String) (syncRoot : String)
    (hashContent : String → String) (w : SyncWorld) :
    List (String × FileState) :=
  let states := w.localFiles.foldl (fun states file =>
    if shouldExclude excludePatterns file.path then states
    else
      alistSet states file.path
        { path := file.path
          localExists := true
          remoteExists := false
          localHash := some (hashContent file.content)
          localMtime := some file.mtime }) []
  let states := w.remoteObjects.foldl (fun states obj =>
    if charsContain ".obsidian-s3-sync/".toList obj.key.toList then states
    else
      match s3KeyToLocalPath syncRoot obj.key with
      | none => states
      | some relativePath =>
        if shouldExclude excludePatterns relativePath then states
        else
          let rh := some ((obj.etag.map stripQuotes).getD "")
          match alistGet states relativePath with
          | some existing =>
            alistSet states relativePath
              { existing with
                remoteExists := true
                remoteMtime := some obj.lastModified
                remoteHash := rh }
          | none =>
            alistSet states relativePath
              { path := relativePath
                localExists := false
                remoteExists := true
                remoteMtime := some obj.lastModified
                remoteHash := rh }) states
  w.journalEntries.foldl (fun states entry =>
    match alistGet states entry.path with
    | some existing =>
      alistSet states entry.path
        { existing with
          journalLocalHash := some entry.localHash
          journalRemoteHash := some entry.remoteHash
          journalSyncedAt := some entry.syncedAt }
    | none =>
      alistSet states entry.path
        { path := entry.path
          localExists := false
          remoteExists := false
          journalLocalHash := some entry.localHash
          journalRemoteHash := some entry.remoteHash
          journalSyncedAt := some entry.syncedAt }) states

/-- Plan item (types.ts `SyncPlanItem`). -/
structure SyncPlanItem where
  path : String
  action : SyncAction
  reason : String
  localHash : Option String := none
  remoteHash : Option String := none
  deriving DecidableEq, Repr

/-- SyncEngine `getActionReason(state, action)`. -/
def getActionReason (state : FileState) : SyncAction → String
  | .upload =>
    if jsTruthy state.journalLocalHash then "Local file modified"
    else "New local file"
  | .download =>
    if jsTruthy state.journalRemoteHash then "Remote file modified"
    else "New remote file"
  | .deleteLocal => "Deleted remotely"
  | .deleteRemote => "Deleted locally"
  | .conflict => "Modified on both local and remote"
  | .skip => "No changes"

/-- SyncEngine `generateSyncPlan(states)`: classify each path in map order,
dropping `skip`. -/
def generateSyncPlan (states : List (String × FileState)) :
    List SyncPlanItem :=
  states.filterMap fun ps =>
    let action := determineAction ps.2
    if action = .skip then none
    else
      some
        { path := ps.1
          action := action
          reason := getActionReason ps.2 action
          localHash := ps.2.localHash
          remoteHash := ps.2.remoteHash }

/-- SyncEngine `uploadFile(path)` restricted to its journal effect: read and
hash the local file, then `markSynced(path, hash, hash, mtime, Date.now())`;
the S3 put itself is an external effect.  Fails when the file is missing. -/
def uploadFileJournal (hashContent : String → String) (w : SyncWorld)
    (j : Journal) (path : String) (now : Nat) : Except String Journal :=
  match w.localFiles.find? (fun f => f.path == path) with
  | none => .error ("File not found: " ++ path)
  | some file =>
    let hash := hashContent file.content
    .ok (markSynced j path hash hash file.mtime now now)

/-- Per-path error (types.ts `SyncError`). -/
structure SyncError where
  path : String
  action : SyncAction
  message : String
  recoverable : Bool
  deriving DecidableEq, Repr

/-- Aggregate run result (types.ts `SyncResult`; the wall-clock fields
`startedAt`/`completedAt` are outside the embedding). -/
structure SyncResult where
  success : Bool
  filesUploaded : Nat
  filesDownloaded : Nat
  filesDeleted : Nat
  conflicts : List String
  errors : List SyncError
  deriving DecidableEq, Repr

/-- The `result` object as `sync()` initializes it. -/
def initialSyncResult : SyncResult :=
  { success := false
    filesUploaded := 0
    filesDownloaded := 0
    filesDeleted := 0
    conflicts := []
    errors := [] }

/-- The per-item counter bump after a successful `executeAction`. -/
def applyActionCount (r : SyncResult) (item : SyncPlanItem) : SyncResult :=
  match item.action with
  | .upload => { r with filesUploaded := r.filesUploaded + 1 }
  | .download => { r with filesDownloaded := r.filesDownloaded + 1 }
  | .deleteLocal => { r with filesDeleted := r.filesDeleted + 1 }
  | .deleteRemote => { r with filesDeleted := r.filesDeleted + 1 }
  | .conflict => { r with conflicts := r.conflicts ++ [item.path] }
  | .skip => r

/-- The plan-execution loop of `sync()`: each item's `executeAction` outcome
is given by `exec`; a thrown error is caught and appended with
`recoverable := true`, and the loop continues. -/
def executePlanLoop (exec : SyncPlanItem → Except String Unit) :
    List SyncPlanItem → SyncResult → SyncResult
  | [], r => r
  | item :: rest, r =>
    match exec item with
    | .ok _ => executePlanLoop exec rest (applyActionCount r item)
    | .error msg =>
      executePlanLoop exec rest
        { r with errors := r.errors ++ [⟨item.path, item.action, msg, true⟩] }

/-- SyncEngine `sync()` over an already-determined enumeration outcome
`buildRes` (`buildFileStateMap` is the only awaited step of the `try` block
that can throw: plan generation is pure and per-item errors are caught inside
the loop).  On enumeration failure the `catch` records the single
non-recoverable error; otherwise the plan is executed, the pending ledger is
cleared, and `success` is set to `errors.length === 0`. -/
def syncRun (buildRes : Except String (List (String × FileState)))
    (exec : SyncPlanItem → Except String Unit) (pending : PendingMap) :
    SyncResult × PendingMap :=
  match buildRes with
  | .error msg =>
    ({ initialSyncResult with errors := [⟨"", .skip, msg, false⟩] }, pending)
  | .ok states =>
    let plan := generateSyncPlan states
    let r := executePlanLoop exec plan initialSyncResult
    ({ r with success := r.errors.length == 0 }, clearPendingChanges pending)

/-! ## Supporting lemmas -/

/-- Bumping a counter after a successful action never touches the error
list. -/
theorem applyActionCount_errors (r : SyncResult) (item : SyncPlanItem) :
    (applyActionCount r item).errors = r.errors := by
  cases item with
  | mk path action reason lh rh => cases action <;> simp [applyActionCount]

/-- The execution loop visits every plan item: the accumulated errors are the
initial ones followed by one `recoverable := true` record per failing item,
in plan order. -/
theorem executePlanLoop_errors (exec : SyncPlanItem → Except String Unit)
    (l : List SyncPlanItem) (r : SyncResult) :
    (executePlanLoop exec l r).errors =
      r.errors ++ l.filterMap (fun item =>
        match exec item with
        | .ok _ => none
        | .error m => some ⟨item.path, item.action, m, true⟩) := by
  induction l generalizing r with
  | nil => simp [executePlanLoop]
  | cons item rest ih =>
    cases hx : exec item with
    | ok u =>
      simp [executePlanLoop, hx, ih, applyActionCount_errors]
    | error m =>
      simp [executePlanLoop, hx, ih]

/-- A list without a slash has no last-slash split. -/
theorem lastSlashSplit_eq_none (l : List Char) (h : '/' ∉ l) :
    lastSlashSplit l = none := by
  induction l with
  | nil => rfl
  | cons c rest ih =>
    have hc : ¬c = '/' := fun hEq => h (by simp [hEq])
    have hr : '/' ∉ rest := fun hm => h (List.mem_cons_of_mem c hm)
    simp [lastSlashSplit, ih hr, hc]

/-- Conversely, a list with no last-slash split contains no slash. -/
theorem not_mem_of_lastSlashSplit_eq_none (l : List Char)
    (h : lastSlashSplit l = none) : '/' ∉ l := by
  induction l with
  | nil => simp
  | cons c rest ih =>
    cases hrec : lastSlashSplit rest with
    | some dn =>
      exfalso
      simp [lastSlashSplit, hrec] at h
    | none =>
      by_cases hc : c = '/'
      · exfalso
        simp [lastSlashSplit, hrec, hc] at h
      · intro hm
        cases List.mem_cons.mp hm with
        | inl h1 => exact hc h1.symm
        | inr h2 => exact ih hrec h2

/-- Soundness of `lastSlashSplit`: a split reassembles the list and the name
part is slash-free. -/
theorem lastSlashSplit_eq_some (l : List Char) :
    ∀ d n, lastSlashSplit l = some (d, n) → l = d ++ '/' :: n ∧ '/' ∉ n := by
  induction l with
  | nil => intro d n h; simp [lastSlashSplit] at h
  | cons c rest ih =>
    intro d n h
    cases hrec : lastSlashSplit rest with
    | some dn =>
      obtain ⟨d', n'⟩ := dn
      simp [lastSlashSplit, hrec] at h
      obtain ⟨hd, hn⟩ := h
      obtain ⟨hrest, hnot⟩ := ih d' n' hrec
      subst hd hn
      exact ⟨by simp [hrest], hnot⟩
    | none =>
      by_cases hc : c = '/'
      · simp [lastSlashSplit, hrec, hc] at h
        obtain ⟨hd, hn⟩ := h
        subst hd hn
        exact ⟨by simp [hc], not_mem_of_lastSlashSplit_eq_none rest hrec⟩
      · simp [lastSlashSplit, hrec, hc] at h

/-- Completeness of `lastSlashSplit` on a slash-free name part. -/
theorem lastSlashSplit_append (d n : List Char) (h : '/' ∉ n) :
    lastSlashSplit (d ++ '/' :: n) = some (d, n) := by
  induction d with
  | nil => simp [lastSlashSplit, lastSlashSplit_eq_none n h]
  | cons c d' ih => simp [lastSlashSplit, ih]

/-- Stripping a prefix it just prepended recovers the remainder. -/
theorem stripChars_append (a b : List Char) : stripChars a (a ++ b) = some b := by
  induction a with
  | nil => rfl
  | cons c a' ih => simp [stripChars, ih]

/-- The `LOCAL_` marker characters. -/
theorem conflictLocalTag_chars :
    conflictLocalTag = ['L', 'O', 'C', 'A', 'L', '_'] := rfl

/-- The `REMOTE_` marker characters. -/
theorem conflictRemoteTag_chars :
    conflictRemoteTag = ['R', 'E', 'M', 'O', 'T', 'E', '_'] := rfl

/-- A basename bearing the `REMOTE_` marker never strips as `LOCAL_`. -/
theorem stripChars_local_of_remote (n : List Char) :
    stripChars conflictLocalTag (conflictRemoteTag ++ n) = none := by
  simp [conflictLocalTag_chars, conflictRemoteTag_chars, stripChars]

/-- Neither marker contains a slash. -/
theorem no_slash_in_tags :
    '/' ∉ conflictLocalTag ∧ '/' ∉ conflictRemoteTag := by decide

/-- Recovering the original from a marker-prefixed, slash-free basename. -/
theorem getOriginalPath_mk_flat (n : List Char) (h : '/' ∉ n) :
    getOriginalPath ⟨conflictLocalTag ++ n⟩ = some ⟨n⟩
    ∧ getOriginalPath ⟨conflictRemoteTag ++ n⟩ = some ⟨n⟩ := by
  have hL : lastSlashSplit (conflictLocalTag ++ n) = none :=
    lastSlashSplit_eq_none _ (by
      intro hm
      cases List.mem_append.mp hm with
      | inl h1 => exact no_slash_in_tags.1 h1
      | inr h2 => exact h h2)
  have hR : lastSlashSplit (conflictRemoteTag ++ n) = none :=
    lastSlashSplit_eq_none _ (by
      intro hm
      cases List.mem_append.mp hm with
      | inl h1 => exact no_slash_in_tags.2 h1
      | inr h2 => exact h h2)
  constructor
  · simp [getOriginalPath, hL, stripChars_append, joinDir]
  · simp [getOriginalPath, hR, stripChars_append, stripChars_local_of_remote,
      joinDir]

/-- Recovering the original from a marker-prefixed basename below a
non-empty directory. -/
theorem getOriginalPath_mk_nested (d n : List Char) (hd : ¬d.isEmpty = true)
    (h : '/' ∉ n) :
    getOriginalPath ⟨d ++ '/' :: (conflictLocalTag ++ n)⟩
      = some ⟨d ++ '/' :: n⟩
    ∧ getOriginalPath ⟨d ++ '/' :: (conflictRemoteTag ++ n)⟩
      = some ⟨d ++ '/' :: n⟩ := by
  have hnL : '/' ∉ conflictLocalTag ++ n := by
    intro hm
    cases List.mem_append.mp hm with
    | inl h1 => exact no_slash_in_tags.1 h1
    | inr h2 => exact h h2
  have hnR : '/' ∉ conflictRemoteTag ++ n := by
    intro hm
    cases List.mem_append.mp hm with
    | inl h1 => exact no_slash_in_tags.2 h1
    | inr h2 => exact h h2
  constructor
  · simp [getOriginalPath, lastSlashSplit_append d _ hnL, stripChars_append,
      joinDir, hd]
  · simp [getOriginalPath, lastSlashSplit_append d _ hnR, stripChars_append,
      stripChars_local_of_remote, joinDir, hd]

/-- Rebuilding a string from its characters is the identity. -/
theorem string_mk_toList (s : String) : (⟨s.toList⟩ : String) = s := rfl

/-- Does the path's last slash, if any, sit strictly after the first
character?  This is the side condition under which the conflict-path round
trip is invertible (vault-relative paths, which never begin with `/`,
always satisfy it). -/
def slashNotLeading (path : String) : Bool :=
  match lastSlashSplit path.toList with
  | some (d, _) => !d.isEmpty
  | none => true

/-! ## Claim theorems -/

/-- C1: when a file exists on both sides with differing hashes and no journal
baseline, `computeThreeWayDiff` classifies it `both-changed` and
`diffToAction` maps that to `conflict`, yet the orchestrator's
`determineAction` resolves the very same situation by comparing timestamps:
it returns `upload` when the local mtime is larger and `download` otherwise,
contradicting the claim that the system never picks a direction by
timestamps in this case. -/
theorem determineAction_firstSync_picks_by_mtime :
    computeThreeWayDiff ⟨true, some "h1", some 2⟩ ⟨true, some "h2", some 1⟩
        none = .bothChanged
    ∧ diffToAction .bothChanged = "conflict"
    ∧ determineAction
        { path := "Notes/a.md", localExists := true, remoteExists := true
          localHash := some "h1", remoteHash := some "h2"
          localMtime := some 2, remoteMtime := some 1 } = .upload
    ∧ determineAction
        { path := "Notes/a.md", localExists := true, remoteExists := true
          localHash := some "h1", remoteHash := some "h2"
          localMtime := some 1, remoteMtime := some 2 } = .download := by
  decide

/-- C2: the exclusion filter does not give `**` its documented semantics.
The replace chain turns the pattern `private/**` into the regex
`^private/.[^/]*$` (the single-`*` replace also rewrites the `*` of the `.*`
just produced), so a path two levels below the prefix is NOT excluded, while
a direct child still is; the repository's own `matchGlob` path utility,
which protects `**` with a placeholder, excludes the nested path as the
claim demands. -/
theorem shouldExclude_globstar_single_level :
    shouldExclude ["private/**"] "private/a/b.md" = false
    ∧ shouldExclude ["private/**"] "private/a.md" = true
    ∧ matchGlob "private/a/b.md" "private/**" = true := by
  decide

/-- C3: repeated create/modify events on one path do coalesce into a single
pending entry carrying the latest timestamp, but a delete event arriving
while a create/modify entry is pending is coalesced away as well: the ledger
keeps type `modify` (only the timestamp is updated), contradicting the claim
that a delete is never coalesced away (and the source's own comment "For
deletes and renames, always record"). -/
theorem addPendingChange_delete_coalesced_into_modify :
    (alistGet (addPendingChange (addPendingChange []
        { path := "a.md", type := .create, timestamp := 1 })
        { path := "a.md", type := .modify, timestamp := 2 }) "a.md"
      = some { path := "a.md", type := .modify, timestamp := 2 })
    ∧ ((alistGet (addPendingChange (addPendingChange []
        { path := "a.md", type := .modify, timestamp := 1 })
        { path := "a.md", type := .delete, timestamp := 2 }) "a.md").map
          (fun c => c.type) = some .modify) := by
  decide

/-- C7: a path with local content only (no remote object, no journal entry)
is classified `new-local`, the generated plan holds exactly one `upload`
item for it, and the journal effect of that upload is a `synced` entry whose
local and remote hashes are both the content hash `H1`. -/
theorem new_local_upload_marks_synced (hashContent : String → String)
    (c : String) (mt now : Nat) :
    computeThreeWayDiff ⟨true, some (hashContent c), some mt⟩
        ⟨false, none, none⟩ none = .newLocal
    ∧ diffToAction .newLocal = "upload"
    ∧ generateSyncPlan (buildFileStateMap [] "vault" hashContent
        ⟨[⟨"Notes/a.md", c, mt⟩], [], []⟩)
        = [⟨"Notes/a.md", .upload, "New local file",
            some (hashContent c), none⟩]
    ∧ uploadFileJournal hashContent ⟨[⟨"Notes/a.md", c, mt⟩], [], []⟩ []
        "Notes/a.md" now
        = .ok [("Notes/a.md", ⟨"Notes/a.md", hashContent c, hashContent c,
            mt, now, now, .synced⟩)]
    ∧ getEntry [("Notes/a.md",
          (⟨"Notes/a.md", hashContent c, hashContent c, mt, now, now,
            .synced⟩ : SyncJournalEntry))] "Notes/a.md"
        = some ⟨"Notes/a.md", hashContent c, hashContent c, mt, now, now,
            .synced⟩ :=
  ⟨rfl, rfl, rfl, rfl, rfl⟩

/-- C8: whenever enumeration succeeded, the run ends by clearing the whole
pending ledger — the next pending count is zero for every executor outcome,
including executors that fail on some (or all) plan items. -/
theorem syncRun_clears_pending_even_on_item_failure
    (states : List (String × FileState))
    (exec : SyncPlanItem → Except String Unit) (pending : PendingMap) :
    (syncRun (.ok states) exec pending).2 = []
    ∧ getPendingCount (syncRun (.ok states) exec pending).2 = 0 := by
  simp [syncRun, clearPendingChanges, getPendingCount]

/-- C9: `markDeleted` on a path with no journal entry is a no-op: the journal
is returned unchanged and in particular no `status = deleted` entry is
created. -/
theorem markDeleted_absent_path_noop (j : Journal) (path : String)
    (h : getEntry j path = none) :
    markDeleted j path = j := by
  unfold markDeleted
  rw [h]

/-- Witness for C9 at a concrete journal: deleting `a.md`, which has no
entry, leaves a one-entry journal exactly as it was. -/
theorem markDeleted_absent_path_noop_witness :
    getEntry [("b.md",
        (⟨"b.md", "h", "h", 1, 2, 3, .synced⟩ : SyncJournalEntry))] "a.md"
      = none
    ∧ markDeleted [("b.md",
        (⟨"b.md", "h", "h", 1, 2, 3, .synced⟩ : SyncJournalEntry))] "a.md"
      = [("b.md", (⟨"b.md", "h", "h", 1, 2, 3, .synced⟩ : SyncJournalEntry))] :=
  ⟨by decide,
   markDeleted_absent_path_noop
     [("b.md", (⟨"b.md", "h", "h", 1, 2, 3, .synced⟩ : SyncJournalEntry))]
     "a.md" (by decide)⟩

/-- C10: a run's `success` flag is `true` exactly when its error list is
empty, for every enumeration outcome, executor and starting ledger: the
enumeration-failure branch leaves `success` at its `false` initialization
while recording one error, and the normal branch sets
`success := errors.length === 0`. -/
theorem syncRun_success_iff_errors_empty
    (buildRes : Except String (List (String × FileState)))
    (exec : SyncPlanItem → Except String Unit) (pending : PendingMap) :
    (syncRun buildRes exec pending).1.success = true
      ↔ (syncRun buildRes exec pending).1.errors = [] := by
  cases buildRes with
  | error msg => simp [syncRun, initialSyncResult]
  | ok states =>
    simp [syncRun, List.length_eq_zero]

/-- C6: per-path execution errors are collected, not fatal: with a successful
enumeration the run's error list is exactly one `recoverable := true` record
per failing plan item, in plan order (so every remaining item is still
executed); with a failing enumeration the run's error list is exactly the
single `recoverable := false` record. -/
theorem syncRun_error_collection (exec : SyncPlanItem → Except String Unit)
    (pending : PendingMap) :
    (∀ msg, (syncRun (.error msg) exec pending).1.errors
      = [⟨"", .skip, msg, false⟩])
    ∧ (∀ states, (syncRun (.ok states) exec pending).1.errors
      = (generateSyncPlan states).filterMap (fun item =>
          match exec item with
          | .ok _ => none
          | .error m => some ⟨item.path, item.action, m, true⟩)) := by
  constructor
  · intro msg
    simp [syncRun]
  · intro states
    simp [syncRun, executePlanLoop_errors, initialSyncResult]

/-- A merged state whose local hash equals the journal's local baseline but
whose observed remote hash drifted from the (non-empty) remote baseline is
classified `download`. -/
theorem determineAction_download_of_remote_drift (st : FileState)
    (lh rh jlh jrh : String)
    (h1 : st.localExists = true) (h2 : st.remoteExists = true)
    (hlh : st.localHash = some lh) (hrh : st.remoteHash = some rh)
    (hjlh : st.journalLocalHash = some jlh)
    (hjrh : st.journalRemoteHash = some jrh)
    (heql : lh = jlh) (hlr : lh ≠ rh) (hrj : rh ≠ jrh) (hjrh0 : jrh ≠ "") :
    determineAction st = .download := by
  have hjlhrh : jlh ≠ rh := fun hEq => hlr (heql.trans hEq)
  have hjrhE : jrh.isEmpty = false := by
    cases hE : jrh.isEmpty
    · rfl
    · exact absurd ((String.isEmpty_iff jrh).mp hE) hjrh0
  simp [determineAction, h1, h2, hlh, hrh, hjlh, hjrh, jsTruthy, heql, hlr,
    hjlhrh, hjrhE, hrj]

/-- C4: the second run after an upload is not a skip.  Run 1 uploads
`Notes/a.md` and `markSynced` records the content hash `H` as both baselines;
run 2 observes the object store's version marker `E` (the ETag with quotes
stripped) as the remote hash.  Whenever that marker differs from the content
hash — always, for the SHA-256 `hashContent` against an MD5-shaped ETag —
the merged state classifies `download`, so the unchanged file is
re-downloaded instead of every path classifying `skip`. -/
theorem second_run_downloads_uploaded_file (hashContent : String → String)
    (c E : String) (mt mtR now : Nat)
    (hne : stripQuotes E ≠ hashContent c) (hH : hashContent c ≠ "") :
    let H := hashContent c
    let w1 : SyncWorld :=
      { localFiles := [⟨"Notes/a.md", c, mt⟩]
        remoteObjects := []
        journalEntries := [] }
    let w2 : SyncWorld :=
      { localFiles := [⟨"Notes/a.md", c, mt⟩]
        remoteObjects := [⟨"vault/Notes/a.md", some E, mtR⟩]
        journalEntries := [⟨"Notes/a.md", H, H, mt, now, now, .synced⟩] }
    uploadFileJournal hashContent w1 [] "Notes/a.md" now
      = .ok [("Notes/a.md", ⟨"Notes/a.md", H, H, mt, now, now, .synced⟩)]
    ∧ (alistGet (buildFileStateMap [] "vault" hashContent w2)
        "Notes/a.md").map determineAction = some .download := by
  intro H w1 w2
  constructor
  · rfl
  · have hstate : alistGet (buildFileStateMap [] "vault" hashContent w2)
        "Notes/a.md" =
        some
          { path := "Notes/a.md", localExists := true, remoteExists := true
            localHash := some H, remoteHash := some (stripQuotes E)
            localMtime := some mt, remoteMtime := some mtR
            journalLocalHash := some H, journalRemoteHash := some H
            journalSyncedAt := some now } := rfl
    rw [hstate, Option.map_some']
    rw [determineAction_download_of_remote_drift _ H (stripQuotes E) H H
      rfl rfl rfl rfl rfl rfl rfl (fun hEq => hne hEq.symm) hne hH]

/-- C5 counterexample: for the path `/a` — whose only slash is its first
character — `generateConflictPaths` drops the empty directory part (JS
empty-string falsiness), so `getOriginalPath` recovers `a`, not `/a`: the
round trip is not the identity for every path at any directory depth. -/
theorem conflict_roundtrip_fails_on_leading_slash :
    getOriginalPath (generateConflictPaths "/a").localPath = some "a"
    ∧ getOriginalPath (generateConflictPaths "/a").localPath ≠ some "/a" := by
  decide

/-- C5 (amended): for every path whose last slash, if any, is not its first
character — in particular every vault-relative path — `getOriginalPath`
inverts both conflict paths, and marker detection looks only at the final
path segment: prefixing any directory (slash-free basename kept) never
changes `isConflictFile`, and a path whose directory is `LOCAL_foo` but
whose basename is unmarked is not a conflict file. -/
theorem conflict_roundtrip_of_slashNotLeading (P : String)
    (h : slashNotLeading P = true) :
    (getOriginalPath (generateConflictPaths P).localPath = some P
      ∧ getOriginalPath (generateConflictPaths P).remotePath = some P)
    ∧ (∀ (d n : List Char), '/' ∉ n →
        isConflictFile ⟨d ++ '/' :: n⟩ = isConflictFile ⟨n⟩)
    ∧ isConflictFile "LOCAL_foo/bar.md" = false
    ∧ getOriginalPath "LOCAL_foo/bar.md" = none := by
  refine ⟨?_, ?_, by decide, by decide⟩
  · unfold slashNotLeading at h
    cases hsplit : lastSlashSplit P.toList with
    | none =>
      have hno : '/' ∉ P.toList := not_mem_of_lastSlashSplit_eq_none _ hsplit
      have hsplitD : lastSlashSplit P.data = none := hsplit
      have hflat := getOriginalPath_mk_flat P.toList hno
      constructor
      · calc getOriginalPath (generateConflictPaths P).localPath
            = getOriginalPath ⟨conflictLocalTag ++ P.toList⟩ := by
              simp [generateConflictPaths, hsplitD]
          _ = some ⟨P.toList⟩ := hflat.1
          _ = some P := by rw [string_mk_toList]
      · calc getOriginalPath (generateConflictPaths P).remotePath
            = getOriginalPath ⟨conflictRemoteTag ++ P.toList⟩ := by
              simp [generateConflictPaths, hsplitD]
          _ = some ⟨P.toList⟩ := hflat.2
          _ = some P := by rw [string_mk_toList]
    | some dn =>
      obtain ⟨d, n⟩ := dn
      rw [hsplit] at h
      have hd : ¬d.isEmpty = true := by simpa using h
      have hsplitD : lastSlashSplit P.data = some (d, n) := hsplit
      obtain ⟨hre, hnon⟩ := lastSlashSplit_eq_some P.toList d n hsplit
      have hnested := getOriginalPath_mk_nested d n hd hnon
      have hjoin : joinDir d (conflictLocalTag ++ n)
          = d ++ '/' :: (conflictLocalTag ++ n) := by simp [joinDir, hd]
      have hjoinR : joinDir d (conflictRemoteTag ++ n)
          = d ++ '/' :: (conflictRemoteTag ++ n) := by simp [joinDir, hd]
      constructor
      · calc getOriginalPath (generateConflictPaths P).localPath
            = getOriginalPath ⟨d ++ '/' :: (conflictLocalTag ++ n)⟩ := by
              simp [generateConflictPaths, hsplitD, hjoin]
          _ = some ⟨d ++ '/' :: n⟩ := hnested.1
          _ = some P := by rw [← hre, string_mk_toList]
      · calc getOriginalPath (generateConflictPaths P).remotePath
            = getOriginalPath ⟨d ++ '/' :: (conflictRemoteTag ++ n)⟩ := by
              simp [generateConflictPaths, hsplitD, hjoinR]
          _ = some ⟨d ++ '/' :: n⟩ := hnested.2
          _ = some P := by rw [← hre, string_mk_toList]
  · intro d n hn
    have hsplit : lastSlashSplit (d ++ '/' :: n) = some (d, n) :=
      lastSlashSplit_append d n hn
    have hnone : lastSlashSplit n = none := lastSlashSplit_eq_none n hn
    simp [isConflictFile, hsplit, hnone]

/-- Witness for C5 at a nested concrete path: both round trips recover
`Notes/sub/a.md`. -/
theorem conflict_roundtrip_witness :
    slashNotLeading "Notes/sub/a.md" = true
    ∧ getOriginalPath (generateConflictPaths "Notes/sub/a.md").localPath
        = some "Notes/sub/a.md"
    ∧ getOriginalPath (generateConflictPaths "Notes/sub/a.md").remotePath
        = some "Notes/sub/a.md" :=
  ⟨by decide,
   ((conflict_roundtrip_of_slashNotLeading "Notes/sub/a.md" (by decide)).1).1,
   ((conflict_roundtrip_of_slashNotLeading "Notes/sub/a.md" (by decide)).1).2⟩

/-- Witness for C4: with content hash `sha256aa` recorded by run 1 and an
observed marker `etagbb`, the second run classifies the path `download`. -/
theorem second_run_downloads_uploaded_file_witness :
    (alistGet (buildFileStateMap [] "vault" (fun _ => "sha256aa")
        { localFiles := [⟨"Notes/a.md", "x", 5⟩]
          remoteObjects := [⟨"vault/Notes/a.md", some "etagbb", 7⟩]
          journalEntries :=
            [⟨"Notes/a.md", "sha256aa", "sha256aa", 5, 6, 6, .synced⟩] })
      "Notes/a.md").map determineAction = some .download :=
  (second_run_downloads_uploaded_file (fun _ => "sha256aa") "x" "etagbb" 5 7 6
    (by decide) (by decide)).2
